import Mathlib

/-!
# Verification of the dependency-graph builder (`src/dependency_viz.py`)

Shallow embedding of the core of `dependency_viz.py`: version resolution with
an in-run cache (`get_latest_version`), per-package dependency fetching with
substring filtering and 404 fallback (`fetch_dependencies_for_package`), and
the depth-1 graph construction capped at the first three direct dependencies
(`build_dependency_graph`).

The registry (crates.io HTTP API) is modelled as an oracle `Registry` giving,
for each package, the metadata response (newest version or a failure) and, for
each package/version pair, the dependency-endpoint response.  The mutable
object state (`version_cache`, `visited`) is threaded explicitly through a
`St` record, which additionally logs each network request issued in `calls`
so that "performs no network call" claims can be stated as call-log equality.

The Python 404-fallback in `fetch_dependencies_for_package` is recursive; the
embedding takes an explicit `fuel` argument that bounds the recursion depth,
and every theorem is stated for all fuel values (or for `fuel + 1`, matching
one unfolding of the Python call).
-/

namespace DependencyViz

/-- Response of the metadata endpoint `GET /crates/{package}`:
HTTP 200 carrying `crate.newest_version`, a non-200 status, or a raised
exception (timeout, connection error, malformed JSON). -/
inductive MetaResp where
  | ok : String → MetaResp
  | badStatus : Nat → MetaResp
  | exn : MetaResp
deriving DecidableEq, Repr

/-- Response of the dependency endpoint
`GET /crates/{package}/{version}/dependencies`: HTTP 200 carrying the list of
`crate_id` fields, HTTP 404, another non-success status, or an exception. -/
inductive DepResp where
  | ok : List String → DepResp
  | notFound : DepResp
  | other : Nat → DepResp
  | exn : DepResp
deriving DecidableEq, Repr

/-- A network request issued by the program: a metadata query for a package,
or a dependency query for a package at a concrete version. -/
inductive NetCall where
  | meta : String → NetCall
  | dep : String → String → NetCall
deriving DecidableEq, Repr

/-- The package that a network request concerns. -/
def callPkg : NetCall → String
  | NetCall.meta p => p
  | NetCall.dep p _ => p

/-- The external registry, as an oracle fixing every endpoint's response. -/
structure Registry where
  meta : String → MetaResp
  deps : String → String → DepResp

/-- The mutable state of a `DependencyVisualizer` run: `version_cache` as an
association list in insertion order, the `visited` set as a duplicate-free
insertion-order list, plus a log of every network request issued so far. -/
structure St where
  cache : List (String × String)
  visited : List String
  calls : List NetCall
deriving DecidableEq, Repr

/-- Test that `n` is a prefix of `h` (over characters). -/
def listPrefixEq : List Char → List Char → Bool
  | [], _ => true
  | _ :: _, [] => false
  | a :: as, b :: bs => a = b && listPrefixEq as bs

/-- Test that the needle occurs contiguously inside the haystack. -/
def listContains (needle : List Char) : List Char → Bool
  | [] => listPrefixEq needle []
  | c :: rest => listPrefixEq needle (c :: rest) || listContains needle rest

/-- Python's `f in s` substring test. -/
def substrOf (f s : String) : Bool :=
  listContains f.data s.data

/-- Python's `self.args.filter and self.args.filter in name`: the configured
filter is non-empty and occurs in `name`. -/
def filtHit (filt name : String) : Bool :=
  filt != "" && substrOf filt name

/-- Association-list lookup, Python dictionary read. -/
def alookup {β : Type} (p : String) : List (String × β) → Option β
  | [] => none
  | (k, v) :: rest => if k = p then some v else alookup p rest

/-- Membership test for the `visited` set. -/
def memStr (q : String) : List String → Bool
  | [] => false
  | a :: rest => a = q || memStr q rest

/-- Embedding of `get_latest_version` (src/dependency_viz.py lines 39-58):
return the
cached version if present; otherwise query the metadata endpoint, cache and
return `crate.newest_version` on HTTP 200, and return `None` (nothing cached)
on any other status or exception. -/
def get_latest_version (reg : Registry) (st : St) (package : String) :
    Option String × St :=
  match alookup package st.cache with
  | some v => (some v, st)
  | none =>
    match reg.meta package with
    | MetaResp.ok latest =>
      (some latest, { st with cache := st.cache ++ [(package, latest)],
                              calls := st.calls ++ [NetCall.meta package] })
    | MetaResp.badStatus _ =>
      (none, { st with calls := st.calls ++ [NetCall.meta package] })
    | MetaResp.exn =>
      (none, { st with calls := st.calls ++ [NetCall.meta package] })

/-- The version-determination step of `fetch_dependencies_for_package`
(src/dependency_viz.py lines 65-71): `None` or the `"latest"` sentinel go
through `get_latest_version`; an explicit version is used as-is. -/
def resolveVersion (reg : Registry) (st : St) (package : String) :
    Option String → Option String × St
  | none => get_latest_version reg st package
  | some v =>
    if v = "latest" then get_latest_version reg st package else (some v, st)

/-- Append a dependency-endpoint request to the call log. -/
def logDep (st : St) (package actual : String) : St :=
  { st with calls := st.calls ++ [NetCall.dep package actual] }

/-- Embedding of `fetch_dependencies_for_package` (src/dependency_viz.py
lines 60-102).  Here `version = none` is Python's `None`; `fuel` bounds the 404-fallback
recursion (which the Python code leaves unbounded). -/
def fetch_dependencies_for_package :
    Nat → Registry → String → St → String → Option String → List String × St
  | 0, _, _, st, _, _ => ([], st)
  | fuel + 1, reg, filt, st, package, version =>
    if filtHit filt package then ([], st)
    else
      match resolveVersion reg st package version with
      | (none, st1) => ([], st1)
      | (some actual, st1) =>
        if actual = "" then ([], st1)
        else
          match reg.deps package actual with
          | DepResp.ok names =>
            (names.filter (fun n => !(filtHit filt n)),
              logDep st1 package actual)
          | DepResp.notFound =>
            match get_latest_version reg (logDep st1 package actual)
                package with
            | (none, st3) => ([], st3)
            | (some latest, st3) =>
              if latest != "" && latest != actual then
                fetch_dependencies_for_package fuel reg filt st3 package
                  (some latest)
              else ([], st3)
          | DepResp.other _ => ([], logDep st1 package actual)
          | DepResp.exn => ([], logDep st1 package actual)

/-- The graph value: Python dict from package name to dependency-name list,
in key-insertion order. -/
abbrev Graph := List (String × List String)

/-- Python dict assignment `g[k] = v`: replace in place if the key exists,
otherwise append. -/
def updGraph (g : Graph) (k : String) (v : List String) : Graph :=
  match alookup k g with
  | some _ => g.map (fun kv => if kv.1 = k then (k, v) else kv)
  | none => g ++ [(k, v)]

/-- The depth-1 expansion loop of `build_dependency_graph`
(src/dependency_viz.py lines 120-125): for each dependency not yet visited,
mark it visited, fetch its dependencies at the `"latest"` sentinel, and if the
result is non-empty record it in the graph. -/
def expandDeps (fuel : Nat) (reg : Registry) (filt : String) :
    List String → Graph → St → Graph × St
  | [], g, st => (g, st)
  | dep :: rest, g, st =>
    if memStr dep st.visited then expandDeps fuel reg filt rest g st
    else
      match fetch_dependencies_for_package fuel reg filt
          { st with visited := st.visited ++ [dep] } dep (some "latest") with
      | (subDeps, st2) =>
        if subDeps.isEmpty then expandDeps fuel reg filt rest g st2
        else expandDeps fuel reg filt rest (updGraph g dep subDeps) st2

/-- Embedding of `build_dependency_graph` (src/dependency_viz.py lines
104-127): fetch the
root's direct dependencies at the configured version; if none, the graph is
`{root: []}`; otherwise seed the graph with the full direct list and expand
the first three entries.  Returns `all_deps_graph` with the final state. -/
def build_dependency_graph (fuel : Nat) (reg : Registry) (filt : String)
    (st : St) (root rootVersion : String) : Graph × St :=
  match fetch_dependencies_for_package fuel reg filt st root
      (some rootVersion) with
  | (direct, st1) =>
    if direct.isEmpty then ([(root, [])], st1)
    else expandDeps fuel reg filt (direct.take 3) [(root, direct)] st1

/-- True iff no cache entry stores the `"latest"` sentinel as its value. -/
def noLatestCache (st : St) : Bool :=
  st.cache.all (fun e => e.2 != "latest")

end DependencyViz

namespace DependencyViz

theorem memStr_append (q : String) (l l' : List String) :
    memStr q (l ++ l') = (memStr q l || memStr q l') := by
  induction l with
  | nil => simp [memStr]
  | cons a rest ih => simp [memStr, ih, Bool.or_assoc]

theorem alookup_append_of_none {β : Type} (p : String) (l : List (String × β))
    (v : β) (h : alookup p l = none) : alookup p (l ++ [(p, v)]) = some v := by
  induction l with
  | nil => simp [alookup]
  | cons a rest ih =>
    obtain ⟨k, w⟩ := a
    rw [alookup] at h
    by_cases hk : k = p
    · rw [if_pos hk] at h; exact absurd h (by simp)
    · rw [List.cons_append, alookup, if_neg hk] at *
      exact ih h

theorem glv_visited (reg : Registry) (st : St) (p : String) :
    (get_latest_version reg st p).2.visited = st.visited := by
  unfold get_latest_version
  cases h : alookup p st.cache with
  | some v => rfl
  | none => cases hm : reg.meta p <;> rfl

theorem glv_calls_sub (reg : Registry) (st : St) (p : String) (c : NetCall)
    (hc : c ∈ (get_latest_version reg st p).2.calls) :
    c ∈ st.calls ∨ callPkg c = p := by
  unfold get_latest_version at hc
  cases h : alookup p st.cache with
  | some v => rw [h] at hc; exact Or.inl hc
  | none =>
    rw [h] at hc
    cases hm : reg.meta p <;> rw [hm] at hc <;>
      simp only [List.mem_append, List.mem_singleton] at hc <;>
      rcases hc with hc | hc <;>
      first
        | exact Or.inl hc
        | exact Or.inr (by rw [hc]; rfl)

theorem glv_of_cached (reg : Registry) (st : St) (p : String) (v : String)
    (h : alookup p st.cache = some v) :
    get_latest_version reg st p = (some v, st) := by
  unfold get_latest_version
  rw [h]

theorem glv_cache_of_some (reg : Registry) (st : St) (p : String)
    (l : String) (st1 : St) (h : get_latest_version reg st p = (some l, st1)) :
    alookup p st1.cache = some l := by
  unfold get_latest_version at h
  cases hc : alookup p st.cache with
  | some v =>
    rw [hc] at h
    simp only [Prod.mk.injEq, Option.some.injEq] at h
    rw [← h.2, ← h.1]
    exact hc
  | none =>
    rw [hc] at h
    cases hm : reg.meta p <;> rw [hm] at h <;>
      simp only [Prod.mk.injEq, Option.some.injEq] at h
    · obtain ⟨h1, h2⟩ := h
      rw [← h2]
      simp only []
      rw [← h1]
      exact alookup_append_of_none p st.cache _ hc
    · exact absurd h.1 (by simp)
    · exact absurd h.1 (by simp)

theorem glv_calls_len (reg : Registry) (st : St) (p : String) :
    (get_latest_version reg st p).2.calls.length ≤ st.calls.length + 1 := by
  unfold get_latest_version
  cases h : alookup p st.cache with
  | some v => exact Nat.le_succ_of_le (Nat.le_refl _)
  | none => cases hm : reg.meta p <;> simp

end DependencyViz

namespace DependencyViz

/-- A registry whose metadata endpoint never reports `"latest"` as the
newest version. -/
def goodReg (reg : Registry) : Prop :=
  ∀ q s, reg.meta q = MetaResp.ok s → s ≠ "latest"

theorem glv_noLatest (reg : Registry) (st : St) (p : String)
    (hreg : goodReg reg) (hst : noLatestCache st = true) :
    noLatestCache (get_latest_version reg st p).2 = true := by
  unfold get_latest_version
  cases h : alookup p st.cache with
  | some v => exact hst
  | none =>
    cases hm : reg.meta p with
    | ok latest =>
      have hne : latest ≠ "latest" := hreg p latest hm
      simp only [noLatestCache] at hst ⊢
      simp [List.all_append, hst, hne]
    | badStatus c => exact hst
    | exn => exact hst

theorem rv_visited (reg : Registry) (st : St) (p : String) (v : Option String) :
    (resolveVersion reg st p v).2.visited = st.visited := by
  cases v with
  | none => exact glv_visited reg st p
  | some w =>
    rw [resolveVersion]
    by_cases hw : w = "latest"
    · rw [if_pos hw]; exact glv_visited reg st p
    · rw [if_neg hw]

theorem rv_calls_sub (reg : Registry) (st : St) (p : String) (v : Option String)
    (c : NetCall) (hc : c ∈ (resolveVersion reg st p v).2.calls) :
    c ∈ st.calls ∨ callPkg c = p := by
  cases v with
  | none => exact glv_calls_sub reg st p c hc
  | some w =>
    rw [resolveVersion] at hc
    by_cases hw : w = "latest"
    · rw [if_pos hw] at hc; exact glv_calls_sub reg st p c hc
    · rw [if_neg hw] at hc; exact Or.inl hc

theorem rv_noLatest (reg : Registry) (st : St) (p : String) (v : Option String)
    (hreg : goodReg reg) (hst : noLatestCache st = true) :
    noLatestCache (resolveVersion reg st p v).2 = true := by
  cases v with
  | none => exact glv_noLatest reg st p hreg hst
  | some w =>
    rw [resolveVersion]
    by_cases hw : w = "latest"
    · rw [if_pos hw]; exact glv_noLatest reg st p hreg hst
    · rw [if_neg hw]; exact hst

/-- Master state-evolution lemma for the fetcher: it never touches the
visited set, every network request it issues concerns the fetched package,
and (for a registry that never reports `"latest"`) it never stores
`"latest"` in the version cache. -/
theorem fetch_evolution (fuel : Nat) (reg : Registry) (filt : String)
    (st : St) (p : String) (v : Option String) :
    (fetch_dependencies_for_package fuel reg filt st p v).2.visited
        = st.visited
    ∧ (∀ c ∈ (fetch_dependencies_for_package fuel reg filt st p v).2.calls,
        c ∈ st.calls ∨ callPkg c = p)
    ∧ (goodReg reg → noLatestCache st = true →
        noLatestCache (fetch_dependencies_for_package fuel reg filt st p v).2
          = true) := by
  induction fuel generalizing st v with
  | zero => exact ⟨rfl, fun c hc => Or.inl hc, fun _ h => h⟩
  | succ fuel ih =>
    rw [fetch_dependencies_for_package]
    split
    · exact ⟨rfl, fun c hc => Or.inl hc, fun _ h => h⟩
    · split
      case _ st1 heq =>
        refine ⟨?_, ?_, ?_⟩
        · have := rv_visited reg st p v; rw [heq] at this; exact this
        · intro c hc
          have := rv_calls_sub reg st p v c (by rw [heq]; exact hc)
          exact this
        · intro hreg hst
          have := rv_noLatest reg st p v hreg hst
          rw [heq] at this; exact this
      case _ actual st1 heq =>
        have hv1 : st1.visited = st.visited := by
          have := rv_visited reg st p v; rw [heq] at this; exact this
        have hc1 : ∀ c ∈ st1.calls, c ∈ st.calls ∨ callPkg c = p := by
          intro c hc
          exact rv_calls_sub reg st p v c (by rw [heq]; exact hc)
        have hn1 : goodReg reg → noLatestCache st = true →
            noLatestCache st1 = true := by
          intro hreg hst
          have := rv_noLatest reg st p v hreg hst
          rw [heq] at this; exact this
        split
        · exact ⟨hv1, hc1, hn1⟩
        · -- logDep state
          have hv2 : (logDep st1 p actual).visited = st.visited := hv1
          have hc2 : ∀ c ∈ (logDep st1 p actual).calls,
              c ∈ st.calls ∨ callPkg c = p := by
            intro c hc
            simp only [logDep, List.mem_append, List.mem_singleton] at hc
            rcases hc with hc | hc
            · exact hc1 c hc
            · exact Or.inr (by rw [hc]; rfl)
          have hn2 : goodReg reg → noLatestCache st = true →
              noLatestCache (logDep st1 p actual) = true := hn1
          split
          · exact ⟨hv2, hc2, hn2⟩
          · -- 404 branch: match on get_latest_version
            split
            case _ st3 heq3 =>
              refine ⟨?_, ?_, ?_⟩
              · have := glv_visited reg (logDep st1 p actual) p
                rw [heq3] at this; rw [this]; exact hv2
              · intro c hc
                have := glv_calls_sub reg (logDep st1 p actual) p c
                  (by rw [heq3]; exact hc)
                rcases this with h | h
                · exact hc2 c h
                · exact Or.inr h
              · intro hreg hst
                have := glv_noLatest reg (logDep st1 p actual) p hreg
                  (hn2 hreg hst)
                rw [heq3] at this; exact this
            case _ latest st3 heq3 =>
              have hv3 : st3.visited = st.visited := by
                have := glv_visited reg (logDep st1 p actual) p
                rw [heq3] at this; rw [this]; exact hv2
              have hc3 : ∀ c ∈ st3.calls, c ∈ st.calls ∨ callPkg c = p := by
                intro c hc
                have := glv_calls_sub reg (logDep st1 p actual) p c
                  (by rw [heq3]; exact hc)
                rcases this with h | h
                · exact hc2 c h
                · exact Or.inr h
              have hn3 : goodReg reg → noLatestCache st = true →
                  noLatestCache st3 = true := by
                intro hreg hst
                have := glv_noLatest reg (logDep st1 p actual) p hreg
                  (hn2 hreg hst)
                rw [heq3] at this; exact this
              split
              · -- recursive call
                obtain ⟨ihv, ihc, ihn⟩ := ih st3 (some latest)
                refine ⟨by rw [ihv]; exact hv3, ?_, ?_⟩
                · intro c hc
                  rcases ihc c hc with h | h
                  · exact hc3 c h
                  · exact Or.inr h
                · intro hreg hst
                  exact ihn hreg (hn3 hreg hst)
              · exact ⟨hv3, hc3, hn3⟩
          · exact ⟨hv2, hc2, hn2⟩
          · exact ⟨hv2, hc2, hn2⟩

end DependencyViz

namespace DependencyViz

theorem expand_calls_sub (fuel : Nat) (reg : Registry) (filt : String)
    (l : List String) (g : Graph) (st : St) (c : NetCall)
    (hc : c ∈ (expandDeps fuel reg filt l g st).2.calls) :
    c ∈ st.calls ∨ callPkg c ∈ l := by
  induction l generalizing g st with
  | nil => exact Or.inl hc
  | cons dep rest ih =>
    rw [expandDeps] at hc
    by_cases hv : memStr dep st.visited = true
    · rw [if_pos hv] at hc
      rcases ih g st hc with h | h
      · exact Or.inl h
      · exact Or.inr (List.mem_cons_of_mem dep h)
    · rw [if_neg hv] at hc
      rcases hfd : fetch_dependencies_for_package fuel reg filt
          { st with visited := st.visited ++ [dep] } dep (some "latest")
        with ⟨subDeps, st2⟩
      simp only [hfd] at hc
      have hst2 : ∀ c ∈ st2.calls, c ∈ st.calls ∨ callPkg c = dep := by
        intro c hc'
        have := (fetch_evolution fuel reg filt
          { st with visited := st.visited ++ [dep] } dep (some "latest")).2.1
        rw [hfd] at this
        exact this c hc'
      by_cases he : subDeps.isEmpty
      · simp only [if_pos he] at hc
        rcases ih g st2 hc with h | h
        · rcases hst2 c h with h' | h'
          · exact Or.inl h'
          · exact Or.inr (by rw [h']; exact List.mem_cons_self dep rest)
        · exact Or.inr (List.mem_cons_of_mem dep h)
      · simp only [if_neg he] at hc
        rcases ih (updGraph g dep subDeps) st2 hc with h | h
        · rcases hst2 c h with h' | h'
          · exact Or.inl h'
          · exact Or.inr (by rw [h']; exact List.mem_cons_self dep rest)
        · exact Or.inr (List.mem_cons_of_mem dep h)

theorem expand_visited_mem (fuel : Nat) (reg : Registry) (filt : String)
    (l : List String) (g : Graph) (st : St) (q : String)
    (hq : memStr q st.visited = true) :
    memStr q (expandDeps fuel reg filt l g st).2.visited = true := by
  induction l generalizing g st with
  | nil => exact hq
  | cons dep rest ih =>
    rw [expandDeps]
    by_cases hv : memStr dep st.visited = true
    · rw [if_pos hv]; exact ih g st hq
    · rw [if_neg hv]
      rcases hfd : fetch_dependencies_for_package fuel reg filt
          { st with visited := st.visited ++ [dep] } dep (some "latest")
        with ⟨subDeps, st2⟩
      have hst2 : st2.visited = st.visited ++ [dep] := by
        have := (fetch_evolution fuel reg filt
          { st with visited := st.visited ++ [dep] } dep (some "latest")).1
        rw [hfd] at this
        exact this
      have hq2 : memStr q st2.visited = true := by
        rw [hst2, memStr_append, hq, Bool.true_or]
      simp only [hfd]
      by_cases he : subDeps.isEmpty
      · simp only [if_pos he]; exact ih g st2 hq2
      · simp only [if_neg he]; exact ih (updGraph g dep subDeps) st2 hq2

theorem expand_skip (fuel : Nat) (reg : Registry) (filt : String)
    (q : String) (l : List String) (g : Graph) (st : St)
    (hq : memStr q st.visited = true) :
    expandDeps fuel reg filt (q :: l) g st = expandDeps fuel reg filt l g st := by
  rw [expandDeps, if_pos hq]

theorem expand_skip_mid (fuel : Nat) (reg : Registry) (filt : String)
    (q : String) (m l2 : List String) (g : Graph) (st : St)
    (hq : memStr q st.visited = true) :
    expandDeps fuel reg filt (m ++ q :: l2) g st
      = expandDeps fuel reg filt (m ++ l2) g st := by
  induction m generalizing g st with
  | nil => exact expand_skip fuel reg filt q l2 g st hq
  | cons a rest ih =>
    rw [List.cons_append, List.cons_append, expandDeps, expandDeps]
    by_cases hv : memStr a st.visited = true
    · rw [if_pos hv, if_pos hv]; exact ih g st hq
    · rw [if_neg hv, if_neg hv]
      rcases hfd : fetch_dependencies_for_package fuel reg filt
          { st with visited := st.visited ++ [a] } a (some "latest")
        with ⟨subDeps, st2⟩
      have hst2 : st2.visited = st.visited ++ [a] := by
        have := (fetch_evolution fuel reg filt
          { st with visited := st.visited ++ [a] } a (some "latest")).1
        rw [hfd] at this
        exact this
      have hq2 : memStr q st2.visited = true := by
        rw [hst2, memStr_append, hq, Bool.true_or]
      simp only [hfd]
      by_cases he : subDeps.isEmpty
      · simp only [if_pos he]; exact ih g st2 hq2
      · simp only [if_neg he]; exact ih (updGraph g a subDeps) st2 hq2

theorem expand_dup (fuel : Nat) (reg : Registry) (filt : String)
    (q : String) (l1 l2 : List String) (g : Graph) (st : St)
    (hq : memStr q l1 = true) :
    expandDeps fuel reg filt (l1 ++ q :: l2) g st
      = expandDeps fuel reg filt (l1 ++ l2) g st := by
  induction l1 generalizing g st with
  | nil => exact absurd hq (by rw [memStr]; exact Bool.false_ne_true)
  | cons a rest ih =>
    rw [memStr, Bool.or_eq_true] at hq
    rw [List.cons_append, List.cons_append, expandDeps, expandDeps]
    by_cases hv : memStr a st.visited = true
    · rw [if_pos hv, if_pos hv]
      rcases hq with hq | hq
      · have haq : a = q := of_decide_eq_true hq
        exact expand_skip_mid fuel reg filt q rest l2 g st (haq ▸ hv)
      · exact ih g st hq
    · rw [if_neg hv, if_neg hv]
      rcases hfd : fetch_dependencies_for_package fuel reg filt
          { st with visited := st.visited ++ [a] } a (some "latest")
        with ⟨subDeps, st2⟩
      have hst2 : st2.visited = st.visited ++ [a] := by
        have := (fetch_evolution fuel reg filt
          { st with visited := st.visited ++ [a] } a (some "latest")).1
        rw [hfd] at this
        exact this
      have hq2 : a = q → memStr q st2.visited = true := by
        intro haq
        rw [hst2, memStr_append, memStr, haq]
        simp
      simp only [hfd]
      by_cases he : subDeps.isEmpty
      · simp only [if_pos he]
        rcases hq with hq | hq
        · exact expand_skip_mid fuel reg filt q rest l2 g st2
            (hq2 (of_decide_eq_true hq))
        · exact ih g st2 hq
      · simp only [if_neg he]
        rcases hq with hq | hq
        · exact expand_skip_mid fuel reg filt q rest l2 (updGraph g a subDeps)
            st2 (hq2 (of_decide_eq_true hq))
        · exact ih (updGraph g a subDeps) st2 hq

end DependencyViz

namespace DependencyViz

theorem fetch_empty_version (fuel : Nat) (reg : Registry) (filt : String)
    (st : St) (p : String) (hfil : filtHit filt p = false) :
    fetch_dependencies_for_package fuel reg filt st p (some "") = ([], st) := by
  cases fuel with
  | zero => rfl
  | succ fuel =>
    rw [fetch_dependencies_for_package]
    rw [if_neg (by rw [hfil]; exact Bool.false_ne_true)]
    have hrv : resolveVersion reg st p (some "") = (some "", st) := by
      rw [resolveVersion, if_neg (by decide)]
    simp only [hrv]
    simp

/-- C6: if the configured filter substring is non-empty and contained in the
package name, `fetch_dependencies_for_package` returns the empty list at once,
for any fuel, registry, state and requested version, with the state (hence
the network-call log) untouched. -/
theorem C6_filter_excludes_package (fuel : Nat) (reg : Registry)
    (filt : String) (st : St) (p : String) (v : Option String)
    (h1 : filt ≠ "") (h2 : substrOf filt p = true) :
    fetch_dependencies_for_package fuel reg filt st p v = ([], st) := by
  cases fuel with
  | zero => rfl
  | succ fuel =>
    rw [fetch_dependencies_for_package]
    rw [if_pos (by rw [filtHit, h2]; simp [bne_iff_ne, h1])]

/-- Witness for C6 at the spec's own example shape: filter `"serde"`,
package `"serde_json"`, no state change. -/
theorem C6_filter_excludes_package_w :
    fetch_dependencies_for_package 2
        (Registry.mk (fun _ => MetaResp.ok "1.0") (fun _ _ => DepResp.ok []))
        "serde" (St.mk [] [] []) "serde_json" (some "1.0")
      = ([], St.mk [] [] []) :=
  C6_filter_excludes_package 2
    (Registry.mk (fun _ => MetaResp.ok "1.0") (fun _ _ => DepResp.ok []))
    "serde" (St.mk [] [] []) "serde_json" (some "1.0")
    (by decide) (by decide)

/-- C5: when the direct-dependency fetch for the root returns the empty list,
`build_dependency_graph` produces exactly the one-entry graph
`[(root, [])]`. -/
theorem C5_empty_direct_graph (fuel : Nat) (reg : Registry) (filt : String)
    (st : St) (root rootVersion : String)
    (h : (fetch_dependencies_for_package fuel reg filt st root
      (some rootVersion)).1 = []) :
    build_dependency_graph fuel reg filt st root rootVersion
      = ([(root, [])],
          (fetch_dependencies_for_package fuel reg filt st root
            (some rootVersion)).2) := by
  rw [build_dependency_graph]
  rcases hfd : fetch_dependencies_for_package fuel reg filt st root
      (some rootVersion) with ⟨direct, st1⟩
  have hd : direct = [] := by rw [hfd] at h; exact h
  simp only [hfd, hd, List.isEmpty_nil, if_pos]

/-- Witness for C5: a registry returning an empty dependency list for the
root yields the graph `[("root", [])]`. -/
theorem C5_empty_direct_graph_w :
    build_dependency_graph 2
        (Registry.mk (fun _ => MetaResp.ok "1.0") (fun _ _ => DepResp.ok []))
        "" (St.mk [] [] []) "root" "1.0"
      = ([("root", [])],
          (fetch_dependencies_for_package 2
            (Registry.mk (fun _ => MetaResp.ok "1.0")
              (fun _ _ => DepResp.ok []))
            "" (St.mk [] [] []) "root" (some "1.0")).2) :=
  C5_empty_direct_graph 2
    (Registry.mk (fun _ => MetaResp.ok "1.0") (fun _ _ => DepResp.ok []))
    "" (St.mk [] [] []) "root" "1.0" (by decide)

/-- C7: on an HTTP 200 dependency response, the fetcher returns exactly the
registry's dependency identifiers in order, dropping each name that contains
the non-empty filter substring, and logs exactly one dependency request. -/
theorem C7_success_returns_filtered (fuel : Nat) (reg : Registry)
    (filt : String) (st : St) (p v : String) (names : List String)
    (hfil : filtHit filt p = false) (hv1 : v ≠ "latest") (hv2 : v ≠ "")
    (hok : reg.deps p v = DepResp.ok names) :
    fetch_dependencies_for_package (fuel + 1) reg filt st p (some v)
      = (names.filter (fun n => !(filtHit filt n)), logDep st p v) := by
  rw [fetch_dependencies_for_package]
  rw [if_neg (by rw [hfil]; exact Bool.false_ne_true)]
  have hrv : resolveVersion reg st p (some v) = (some v, st) := by
    rw [resolveVersion, if_neg hv1]
  simp only [hrv]
  rw [if_neg hv2]
  simp only [hok]

/-- Witness for C7 at the spec's scenario: filter `"serde"`, registry list
`["serde_json", "tokio"]`, result `["tokio"]`. -/
theorem C7_success_returns_filtered_w :
    fetch_dependencies_for_package 2
        (Registry.mk (fun _ => MetaResp.ok "1.0")
          (fun _ _ => DepResp.ok ["serde_json", "tokio"]))
        "serde" (St.mk [] [] []) "demo" (some "1.0")
      = (["tokio"], logDep (St.mk [] [] []) "demo" "1.0") := by
  have := C7_success_returns_filtered 1
    (Registry.mk (fun _ => MetaResp.ok "1.0")
      (fun _ _ => DepResp.ok ["serde_json", "tokio"]))
    "serde" (St.mk [] [] []) "demo" "1.0" ["serde_json", "tokio"]
    (by decide) (by decide) (by decide) rfl
  rw [this]
  decide

/-- C4: with requested version `None` or the `"latest"` sentinel (and the
package not excluded by the filter), the fetcher first runs the version
resolver, and if that yields `None` it returns the empty list in the
resolver's post-state: no dependency-endpoint request is issued. -/
theorem C4_latest_resolves_first (fuel : Nat) (reg : Registry) (filt : String)
    (st : St) (p : String) (st1 : St)
    (hfil : filtHit filt p = false)
    (hres : get_latest_version reg st p = (none, st1)) :
    fetch_dependencies_for_package (fuel + 1) reg filt st p none = ([], st1)
    ∧ fetch_dependencies_for_package (fuel + 1) reg filt st p (some "latest")
        = ([], st1) := by
  have h1 : resolveVersion reg st p none = (none, st1) := by
    rw [resolveVersion]; exact hres
  have h2 : resolveVersion reg st p (some "latest") = (none, st1) := by
    rw [resolveVersion, if_pos rfl]; exact hres
  constructor
  · rw [fetch_dependencies_for_package,
      if_neg (by rw [hfil]; exact Bool.false_ne_true)]
    simp only [h1]
  · rw [fetch_dependencies_for_package,
      if_neg (by rw [hfil]; exact Bool.false_ne_true)]
    simp only [h2]

/-- Witness for C4: a registry whose metadata endpoint fails yields the
empty list for both the `None` and the `"latest"` request, with exactly the
one metadata request logged. -/
theorem C4_latest_resolves_first_w :
    fetch_dependencies_for_package 2
        (Registry.mk (fun _ => MetaResp.badStatus 500)
          (fun _ _ => DepResp.ok ["x"]))
        "" (St.mk [] [] []) "demo" none
      = ([], St.mk [] [] [NetCall.meta "demo"])
    ∧ fetch_dependencies_for_package 2
        (Registry.mk (fun _ => MetaResp.badStatus 500)
          (fun _ _ => DepResp.ok ["x"]))
        "" (St.mk [] [] []) "demo" (some "latest")
      = ([], St.mk [] [] [NetCall.meta "demo"]) :=
  C4_latest_resolves_first 1
    (Registry.mk (fun _ => MetaResp.badStatus 500) (fun _ _ => DepResp.ok ["x"]))
    "" (St.mk [] [] []) "demo" (St.mk [] [] [NetCall.meta "demo"])
    (by decide) rfl

end DependencyViz

namespace DependencyViz

/-- C2: when the dependency endpoint returns HTTP 404 for `(p, v)`, the
fetcher resolves `p`'s latest version (logging the 404'd request first); if
the resolution yields a version different from `v` it returns the result of
retrying the fetch at that version, and if the resolution fails or yields
`v` itself it returns the empty list. -/
theorem C2_notfound_retries_latest (fuel : Nat) (reg : Registry)
    (filt : String) (st : St) (p v : String)
    (hfil : filtHit filt p = false) (hv1 : v ≠ "latest") (hv2 : v ≠ "")
    (h404 : reg.deps p v = DepResp.notFound) :
    (∀ l st3,
        get_latest_version reg (logDep st p v) p = (some l, st3) → l ≠ v →
          fetch_dependencies_for_package (fuel + 1) reg filt st p (some v)
            = fetch_dependencies_for_package fuel reg filt st3 p (some l))
    ∧ (∀ st3, get_latest_version reg (logDep st p v) p = (none, st3) →
        fetch_dependencies_for_package (fuel + 1) reg filt st p (some v)
          = ([], st3))
    ∧ (∀ st3, get_latest_version reg (logDep st p v) p = (some v, st3) →
        fetch_dependencies_for_package (fuel + 1) reg filt st p (some v)
          = ([], st3)) := by
  have hrv : resolveVersion reg st p (some v) = (some v, st) := by
    rw [resolveVersion, if_neg hv1]
  refine ⟨?_, ?_, ?_⟩
  · intro l st3 hglv hlv
    rw [fetch_dependencies_for_package,
      if_neg (by rw [hfil]; exact Bool.false_ne_true)]
    simp only [hrv]
    rw [if_neg hv2]
    simp only [h404, hglv]
    by_cases hl : l = ""
    · rw [if_neg (by rw [hl]; simp)]
      rw [hl, fetch_empty_version fuel reg filt st3 p hfil]
    · rw [if_pos (by
        rw [Bool.and_eq_true, bne_iff_ne, bne_iff_ne]
        exact ⟨hl, hlv⟩)]
  · intro st3 hglv
    rw [fetch_dependencies_for_package,
      if_neg (by rw [hfil]; exact Bool.false_ne_true)]
    simp only [hrv]
    rw [if_neg hv2]
    simp only [h404, hglv]
  · intro st3 hglv
    rw [fetch_dependencies_for_package,
      if_neg (by rw [hfil]; exact Bool.false_ne_true)]
    simp only [hrv]
    rw [if_neg hv2]
    simp only [h404, hglv]
    rw [if_neg (by simp)]

/-- Witness for C2 at the spec's scenario: `("demo", "2.0")` 404s, the
resolver returns `"3.1"`, and the fetch is retried at `"3.1"`, whose
result (here `["dep1"]`) is returned. -/
theorem C2_notfound_retries_latest_w :
    fetch_dependencies_for_package 2
        (Registry.mk (fun _ => MetaResp.ok "3.1")
          (fun _ w => if w = "2.0" then DepResp.notFound
            else DepResp.ok ["dep1"]))
        "" (St.mk [] [] []) "demo" (some "2.0")
      = fetch_dependencies_for_package 1
          (Registry.mk (fun _ => MetaResp.ok "3.1")
            (fun _ w => if w = "2.0" then DepResp.notFound
              else DepResp.ok ["dep1"]))
          ""
          (St.mk [("demo", "3.1")] []
            [NetCall.dep "demo" "2.0", NetCall.meta "demo"])
          "demo" (some "3.1") :=
  (C2_notfound_retries_latest 1
    (Registry.mk (fun _ => MetaResp.ok "3.1")
      (fun _ w => if w = "2.0" then DepResp.notFound else DepResp.ok ["dep1"]))
    "" (St.mk [] [] []) "demo" "2.0"
    (by decide) (by decide) (by decide) rfl).1
    "3.1"
    (St.mk [("demo", "3.1")] []
      [NetCall.dep "demo" "2.0", NetCall.meta "demo"])
    rfl (by decide)

/-- C3 counterexample: with a registry whose metadata endpoint fails, two
`get_latest_version` calls for the same package in one run issue two network
requests — refuting "two resolve calls perform at most one network call". -/
theorem C3_counterexample :
    ((get_latest_version
        (Registry.mk (fun _ => MetaResp.badStatus 500)
          (fun _ _ => DepResp.ok []))
        ((get_latest_version
          (Registry.mk (fun _ => MetaResp.badStatus 500)
            (fun _ _ => DepResp.ok []))
          (St.mk [] [] []) "demo").2) "demo").2.calls.length = 2)
    ∧ ¬((get_latest_version
        (Registry.mk (fun _ => MetaResp.badStatus 500)
          (fun _ _ => DepResp.ok []))
        ((get_latest_version
          (Registry.mk (fun _ => MetaResp.badStatus 500)
            (fun _ _ => DepResp.ok []))
          (St.mk [] [] []) "demo").2) "demo").2.calls.length ≤ 1) := by
  decide

/-- C3 (amended): a cached package resolves from the cache with no state
change (hence no network call); and whenever a resolution succeeds, a second
resolution of the same package returns the same value without any further
state change, so the two calls together issue at most one network request.
(The original universal "two calls make at most one request" fails when the
first resolution fails, since failures are not cached — see C10.) -/
theorem C3_cache_hit_no_network (reg : Registry) (st : St) (p : String) :
    (∀ v, alookup p st.cache = some v →
        get_latest_version reg st p = (some v, st))
    ∧ (∀ l st1, get_latest_version reg st p = (some l, st1) →
        get_latest_version reg st1 p = (some l, st1)
          ∧ st1.calls.length ≤ st.calls.length + 1) := by
  refine ⟨fun v hv => glv_of_cached reg st p v hv, ?_⟩
  intro l st1 h
  refine ⟨glv_of_cached reg st1 p l (glv_cache_of_some reg st p l st1 h), ?_⟩
  have := glv_calls_len reg st p
  rw [h] at this
  exact this

/-- Witness for C3 (amended): with `"demo"` cached at `"1.0"`, resolution
returns the cached value unchanged; and after one successful resolution a
second one is a cache hit with at most one request issued in total. -/
theorem C3_cache_hit_no_network_w :
    (get_latest_version
        (Registry.mk (fun _ => MetaResp.ok "1.0") (fun _ _ => DepResp.ok []))
        (St.mk [("demo", "1.0")] [] []) "demo"
      = (some "1.0", St.mk [("demo", "1.0")] [] []))
    ∧ ((get_latest_version
          (Registry.mk (fun _ => MetaResp.ok "1.0") (fun _ _ => DepResp.ok []))
          (St.mk [("demo", "1.0")] [] [NetCall.meta "demo"]) "demo"
        = (some "1.0", St.mk [("demo", "1.0")] [] [NetCall.meta "demo"]))
        ∧ (St.mk [("demo", "1.0")] [] [NetCall.meta "demo"]).calls.length
            ≤ (St.mk [] [] []).calls.length + 1) :=
  ⟨(C3_cache_hit_no_network
      (Registry.mk (fun _ => MetaResp.ok "1.0") (fun _ _ => DepResp.ok []))
      (St.mk [("demo", "1.0")] [] []) "demo").1 "1.0" rfl,
    (C3_cache_hit_no_network
      (Registry.mk (fun _ => MetaResp.ok "1.0") (fun _ _ => DepResp.ok []))
      (St.mk [] [] []) "demo").2 "1.0"
      (St.mk [("demo", "1.0")] [] [NetCall.meta "demo"]) rfl⟩

/-- C10: a failed metadata lookup (non-200 status or exception) caches
nothing — the resolver returns `None` with only the metadata request logged
and the cache unchanged — and therefore a second resolution of the same
package issues a fresh metadata request. -/
theorem C10_failures_not_cached (reg : Registry) (st : St) (p : String)
    (hmiss : alookup p st.cache = none)
    (hfail : (∃ c, reg.meta p = MetaResp.badStatus c)
      ∨ reg.meta p = MetaResp.exn) :
    get_latest_version reg st p
      = (none, { st with calls := st.calls ++ [NetCall.meta p] })
    ∧ (get_latest_version reg
          { st with calls := st.calls ++ [NetCall.meta p] } p).2.calls
        = st.calls ++ [NetCall.meta p, NetCall.meta p] := by
  have step : ∀ st' : St, alookup p st'.cache = none →
      get_latest_version reg st' p
        = (none, { st' with calls := st'.calls ++ [NetCall.meta p] }) := by
    intro st' hm
    unfold get_latest_version
    rw [hm]
    rcases hfail with ⟨c, hc⟩ | hc <;> rw [hc]
  refine ⟨step st hmiss, ?_⟩
  rw [step { st with calls := st.calls ++ [NetCall.meta p] } hmiss]
  simp

/-- Witness for C10: failing registry, empty initial cache — the resolver
returns `None` with one logged request, and the repeat call logs a second
request. -/
theorem C10_failures_not_cached_w :
    get_latest_version
        (Registry.mk (fun _ => MetaResp.badStatus 500)
          (fun _ _ => DepResp.ok []))
        (St.mk [] [] []) "demo"
      = (none, St.mk [] [] [NetCall.meta "demo"])
    ∧ (get_latest_version
          (Registry.mk (fun _ => MetaResp.badStatus 500)
            (fun _ _ => DepResp.ok []))
          (St.mk [] [] [NetCall.meta "demo"]) "demo").2.calls
        = [NetCall.meta "demo", NetCall.meta "demo"] :=
  C10_failures_not_cached
    (Registry.mk (fun _ => MetaResp.badStatus 500) (fun _ _ => DepResp.ok []))
    (St.mk [] [] []) "demo" rfl (Or.inl ⟨500, rfl⟩)

end DependencyViz

namespace DependencyViz

/-- C8: the fetcher's result is the empty list unless some dependency
request got an HTTP 200, in which case the result is that response's
identifier list with the filter applied — every failure path (resolution
failure, 404 without usable fallback, other status, exception) degrades to
the empty list and none raises to the caller. -/
theorem C8_failures_degrade_to_empty (fuel : Nat) (reg : Registry)
    (filt : String) (st : St) (p : String) (v : Option String) :
    (fetch_dependencies_for_package fuel reg filt st p v).1 = []
    ∨ ∃ a names, reg.deps p a = DepResp.ok names
        ∧ (fetch_dependencies_for_package fuel reg filt st p v).1
          = names.filter (fun n => !(filtHit filt n)) := by
  induction fuel generalizing st v with
  | zero => exact Or.inl rfl
  | succ fuel ih =>
    rw [fetch_dependencies_for_package]
    split
    · exact Or.inl rfl
    · split
      case _ st1 heq => exact Or.inl rfl
      case _ actual st1 heq =>
        split
        · exact Or.inl rfl
        · split
          case _ names hdeps =>
            exact Or.inr ⟨actual, names, hdeps, rfl⟩
          case _ hdeps =>
            split
            case _ st3 heq3 => exact Or.inl rfl
            case _ latest st3 heq3 =>
              split
              · exact ih st3 (some latest)
              · exact Or.inl rfl
          case _ c hdeps => exact Or.inl rfl
          case _ hdeps => exact Or.inl rfl

/-- C9 counterexample: if the registry reports `"latest"` as the newest
version, the code stores it verbatim in the version cache — after one build
the cache maps `"root"` to the value `"latest"`, refuting "never stored
regardless of what the registry returns". -/
theorem C9_counterexample :
    (build_dependency_graph 1
        (Registry.mk (fun _ => MetaResp.ok "latest")
          (fun _ _ => DepResp.ok []))
        "" (St.mk [] [] []) "root" "latest").2.cache
      = [("root", "latest")]
    ∧ noLatestCache
        (build_dependency_graph 1
          (Registry.mk (fun _ => MetaResp.ok "latest")
            (fun _ _ => DepResp.ok []))
          "" (St.mk [] [] []) "root" "latest").2
      = false := by
  decide

theorem expand_noLatest (fuel : Nat) (reg : Registry) (filt : String)
    (l : List String) (g : Graph) (st : St)
    (hreg : goodReg reg) (hst : noLatestCache st = true) :
    noLatestCache (expandDeps fuel reg filt l g st).2 = true := by
  induction l generalizing g st with
  | nil => exact hst
  | cons dep rest ih =>
    rw [expandDeps]
    by_cases hv : memStr dep st.visited = true
    · rw [if_pos hv]; exact ih g st hst
    · rw [if_neg hv]
      rcases hfd : fetch_dependencies_for_package fuel reg filt
          { st with visited := st.visited ++ [dep] } dep (some "latest")
        with ⟨subDeps, st2⟩
      have hn2 : noLatestCache st2 = true := by
        have := (fetch_evolution fuel reg filt
          { st with visited := st.visited ++ [dep] } dep (some "latest")).2.2
          hreg hst
        rw [hfd] at this
        exact this
      simp only [hfd]
      by_cases he : subDeps.isEmpty
      · simp only [if_pos he]; exact ih g st2 hn2
      · simp only [if_neg he]; exact ih (updGraph g dep subDeps) st2 hn2

/-- C9 (amended): provided the registry's newest-version field is never the
string `"latest"`, a build starting from a cache with no `"latest"` values
ends with no cache entry whose value is `"latest"`.  (The unconditional
claim fails: the code stores the registry's newest-version field verbatim —
see the counterexample.) -/
theorem C9_no_latest_stored (fuel : Nat) (reg : Registry) (filt : String)
    (st : St) (root rootVersion : String)
    (hreg : goodReg reg) (hst : noLatestCache st = true) :
    noLatestCache
      (build_dependency_graph fuel reg filt st root rootVersion).2 = true := by
  rw [build_dependency_graph]
  rcases hfd : fetch_dependencies_for_package fuel reg filt st root
      (some rootVersion) with ⟨direct, st1⟩
  have hn1 : noLatestCache st1 = true := by
    have := (fetch_evolution fuel reg filt st root (some rootVersion)).2.2
      hreg hst
    rw [hfd] at this
    exact this
  simp only [hfd]
  by_cases he : direct.isEmpty
  · simp only [if_pos he]; exact hn1
  · simp only [if_neg he]
    exact expand_noLatest fuel reg filt (direct.take 3) [(root, direct)]
      st1 hreg hn1

/-- Witness for C9 (amended): a registry answering `"1.0"` everywhere leaves
the cache free of `"latest"` after a full build. -/
theorem C9_no_latest_stored_w :
    noLatestCache
      (build_dependency_graph 2
        (Registry.mk (fun _ => MetaResp.ok "1.0")
          (fun _ _ => DepResp.ok ["a"]))
        "" (St.mk [] [] []) "root" "latest").2 = true :=
  C9_no_latest_stored 2
    (Registry.mk (fun _ => MetaResp.ok "1.0") (fun _ _ => DepResp.ok ["a"]))
    "" (St.mk [] [] []) "root" "latest"
    (fun q s h => by
      have h' : MetaResp.ok "1.0" = MetaResp.ok s := h
      injection h' with h1
      rw [← h1]
      decide)
    (by decide)

end DependencyViz

namespace DependencyViz

/-- C1: (i) every network request a build issues beyond the initial state
concerns the root or one of the first three entries of the direct-dependency
list — entries from the fourth onward are never expanded; (ii) an entry
already in the visited set is skipped by the expansion loop; (iii) a name
occurring earlier in the processed list is skipped at its later occurrence,
so a duplicated name is expanded at most once. -/
theorem C1_take3_visited_dedup (fuel : Nat) (reg : Registry) (filt : String)
    (st : St) (root rootVersion : String) :
    (∀ c ∈ (build_dependency_graph fuel reg filt st root rootVersion).2.calls,
        c ∈ st.calls ∨ callPkg c = root
          ∨ callPkg c ∈ (fetch_dependencies_for_package fuel reg filt st root
              (some rootVersion)).1.take 3)
    ∧ (∀ (q : String) (l : List String) (g : Graph) (st' : St),
        memStr q st'.visited = true →
          expandDeps fuel reg filt (q :: l) g st'
            = expandDeps fuel reg filt l g st')
    ∧ (∀ (q : String) (l1 l2 : List String) (g : Graph) (st' : St),
        memStr q l1 = true →
          expandDeps fuel reg filt (l1 ++ q :: l2) g st'
            = expandDeps fuel reg filt (l1 ++ l2) g st') := by
  refine ⟨?_, fun q l g st' h => expand_skip fuel reg filt q l g st' h,
    fun q l1 l2 g st' h => expand_dup fuel reg filt q l1 l2 g st' h⟩
  intro c hc
  rw [build_dependency_graph] at hc
  rcases hfd : fetch_dependencies_for_package fuel reg filt st root
      (some rootVersion) with ⟨direct, st1⟩
  have hst1 : ∀ c ∈ st1.calls, c ∈ st.calls ∨ callPkg c = root := by
    intro c hc'
    have := (fetch_evolution fuel reg filt st root (some rootVersion)).2.1
    rw [hfd] at this
    exact this c hc'
  simp only [hfd] at hc
  simp only [hfd]
  by_cases he : direct.isEmpty
  · simp only [if_pos he] at hc
    rcases hst1 c hc with h | h
    · exact Or.inl h
    · exact Or.inr (Or.inl h)
  · simp only [if_neg he] at hc
    rcases expand_calls_sub fuel reg filt (direct.take 3) [(root, direct)]
        st1 c hc with h | h
    · rcases hst1 c h with h' | h'
      · exact Or.inl h'
      · exact Or.inr (Or.inl h')
    · exact Or.inr (Or.inr h)

/-- Witness for C1 with direct dependencies `["a", "b", "a", "d"]`: the
logged request `meta "a"` concerns a take-3 entry; a visited entry `"a"` is
skipped; the duplicate `"a"` collapses. -/
theorem C1_take3_visited_dedup_w :
    (NetCall.meta "a" ∈ (St.mk [] [] []).calls
      ∨ callPkg (NetCall.meta "a") = "root"
      ∨ callPkg (NetCall.meta "a")
          ∈ (fetch_dependencies_for_package 3
              (Registry.mk (fun _ => MetaResp.ok "1.0")
                (fun p _ => if p = "root" then DepResp.ok ["a", "b", "a", "d"]
                  else DepResp.ok []))
              "" (St.mk [] [] []) "root" (some "1.0")).1.take 3)
    ∧ expandDeps 3
        (Registry.mk (fun _ => MetaResp.ok "1.0")
          (fun p _ => if p = "root" then DepResp.ok ["a", "b", "a", "d"]
            else DepResp.ok []))
        "" ["a"] [] (St.mk [] ["a"] [])
      = expandDeps 3
          (Registry.mk (fun _ => MetaResp.ok "1.0")
            (fun p _ => if p = "root" then DepResp.ok ["a", "b", "a", "d"]
              else DepResp.ok []))
          "" [] [] (St.mk [] ["a"] [])
    ∧ expandDeps 3
        (Registry.mk (fun _ => MetaResp.ok "1.0")
          (fun p _ => if p = "root" then DepResp.ok ["a", "b", "a", "d"]
            else DepResp.ok []))
        "" (["a"] ++ "a" :: []) [] (St.mk [] [] [])
      = expandDeps 3
          (Registry.mk (fun _ => MetaResp.ok "1.0")
            (fun p _ => if p = "root" then DepResp.ok ["a", "b", "a", "d"]
              else DepResp.ok []))
          "" (["a"] ++ []) [] (St.mk [] [] []) :=
  ⟨(C1_take3_visited_dedup 3
      (Registry.mk (fun _ => MetaResp.ok "1.0")
        (fun p _ => if p = "root" then DepResp.ok ["a", "b", "a", "d"]
          else DepResp.ok []))
      "" (St.mk [] [] []) "root" "1.0").1 (NetCall.meta "a") (by decide),
    (C1_take3_visited_dedup 3
      (Registry.mk (fun _ => MetaResp.ok "1.0")
        (fun p _ => if p = "root" then DepResp.ok ["a", "b", "a", "d"]
          else DepResp.ok []))
      "" (St.mk [] [] []) "root" "1.0").2.1 "a" [] [] (St.mk [] ["a"] [])
      (by decide),
    (C1_take3_visited_dedup 3
      (Registry.mk (fun _ => MetaResp.ok "1.0")
        (fun p _ => if p = "root" then DepResp.ok ["a", "b", "a", "d"]
          else DepResp.ok []))
      "" (St.mk [] [] []) "root" "1.0").2.2 "a" ["a"] [] [] (St.mk [] [] [])
      (by decide)⟩

end DependencyViz
